import Mathlib

/-!
Verification of `tuf/ngclient/_internal/requests_fetcher.py` (class
`RequestsFetcher`): the bounded chunked-download loop `_chunks`, the
entry point `fetch`, and the per-endpoint session pool `_get_session`.

The embedding is shallow.  I/O performed against the `requests` /
`urllib3` libraries is modelled by an explicit environment:

* `response.raw.read(amt)` is modelled by an arbitrary function
  `rd : σ → Nat → ReadResult × σ` on an abstract server state `σ`.
  One call either returns a byte chunk (`ReadResult.data`) or raises
  `urllib3.exceptions.ReadTimeoutError` (`ReadResult.stall`).  The
  concrete instance `streamRead` models a server whose body is read
  through the blocking buffered socket reader: `read(amt)` returns
  exactly `amt` bytes while that many remain, returns the remainder and
  then `b""` once the server closes (EOF), or times out when the server
  stops sending; `read(0)` returns `b""` immediately without touching
  the socket.
* `session.get(url, stream=True, timeout=...)` is modelled by a
  `GetOutcome` value: either a response (status code, reason, body
  handle) or a connection-establishment failure.  The `requests`
  library raises `requests.exceptions.ConnectionError` (and friends)
  for the latter; `fetch` does not catch those, which is modelled by
  the `FetchError.connectionFailure` result.

Effects are recorded in an event trace (`Ev`): the HTTP GET, each
`time.sleep`, each `raw.read`, each `yield` to the consumer, and each
`response.close()`.  `_chunks` is a Python generator; its body runs
only when the consumer pulls, its `finally: response.close()` runs when
the body completes, raises, or is closed while suspended at a `yield`.
Closing (or garbage collecting) a generator whose body has not started
runs no code at all; `abandonedTrace` models this.

Bytes are modelled as `Nat`, byte strings as `List Nat`.  Machine
integers do not overflow here (Python ints are unbounded).  Subtraction
`required_length - bytes_received` is `Nat` subtraction; in every
reachable state of the code `bytes_received` never exceeds
`required_length` before the subtraction is evaluated, so this agrees
with the exact integer subtraction of Python.
-/

namespace RequestsFetcher

/-- An observable effect of one `fetch`/`_chunks` execution, in order of
occurrence.  `get sid` records `session.get` issued on the session whose
identity is `sid`; `read amt` records `response.raw.read(amt)`;
`yield data` records a chunk handed to the consumer; `close` records
`response.close()`; `sleep t` records `time.sleep(t)`. -/
inductive Ev where
  | get (sid : Nat)
  | sleep (t : Nat)
  | read (amt : Nat)
  | yield (data : List Nat)
  | close
deriving DecidableEq

/-- Result of one `response.raw.read(amt)` call: a byte string, or a
`urllib3.exceptions.ReadTimeoutError` carrying a message. -/
inductive ReadResult where
  | data (bs : List Nat)
  | stall (msg : String)
deriving DecidableEq

/-- How a `_chunks` run ends: the loop `break`s (normal completion,
carrying the final `bytes_received`), or `ReadTimeoutError` was caught
and `exceptions.SlowRetrievalError(str(e))` is raised. -/
inductive ChunksOutcome where
  | completed (bytes_received : Nat)
  | slow (msg : String)
deriving DecidableEq

/-- The three instance settings fixed in `RequestsFetcher.__init__`:
`socket_timeout = 4`, `chunk_size = 400000`,
`sleep_before_round = None`. -/
structure Config where
  socket_timeout : Nat
  chunk_size : Nat
  sleep_before_round : Option Nat
deriving DecidableEq

/-- The settings assigned in `__init__`. -/
def defaultConfig : Config := ⟨4, 400000, none⟩

/-- Events produced by `if self.sleep_before_round: time.sleep(...)` at
the top of each round.  `None` and `0` are falsy in Python. -/
def sleepEvs (cfg : Config) : List Ev :=
  match cfg.sleep_before_round with
  | some t => if t = 0 then [] else [Ev.sleep t]
  | none => []

/-- The body of the `while True` loop of `RequestsFetcher._chunks`
(requests_fetcher.py lines 102-135), from a state with the given
`bytes_received` and abstract server state `s`.  Each round:
optionally sleeps, computes
`read_amount = min(self.chunk_size, required_length - bytes_received)`,
performs `data = response.raw.read(read_amount)`, adds `len(data)` to
`bytes_received`, `break`s if `data` is empty, otherwise yields `data`
and `break`s if `bytes_received >= required_length`.  A read timeout
aborts the loop with the `slow` outcome (the `except` clause).  The
returned event list stops at the `break`/raise; `response.close()` from
the `finally` block is appended by `chunksRun`. -/
def chunksLoop {σ : Type} (cfg : Config) (rd : σ → Nat → ReadResult × σ)
    (required_length : Nat) (s : σ) (bytes_received : Nat) :
    List Ev × ChunksOutcome :=
  let read_amount := min cfg.chunk_size (required_length - bytes_received)
  match rd s read_amount with
  | (ReadResult.stall msg, _) =>
      (sleepEvs cfg ++ [Ev.read read_amount], ChunksOutcome.slow msg)
  | (ReadResult.data data, s') =>
      if hempty : data = [] then
        (sleepEvs cfg ++ [Ev.read read_amount],
          ChunksOutcome.completed (bytes_received + data.length))
      else if hfull : required_length ≤ bytes_received + data.length then
        (sleepEvs cfg ++ [Ev.read read_amount, Ev.yield data],
          ChunksOutcome.completed (bytes_received + data.length))
      else
        let rest := chunksLoop cfg rd required_length s' (bytes_received + data.length)
        (sleepEvs cfg ++ Ev.read read_amount :: Ev.yield data :: rest.1, rest.2)
termination_by required_length - bytes_received
decreasing_by
  have hlen : 0 < data.length := List.length_pos.mpr hempty
  omega

/-- A complete run of the generator returned by `fetch`, driven by a
consumer that pulls until the generator finishes (or until the
`SlowRetrievalError` surfaces).  The `try`/`finally` of `_chunks`
guarantees the `response.close()` event after the loop events on both
outcomes; when the outcome is `slow`, the `finally` runs before the
`SlowRetrievalError` reaches the caller, so `close` is in the trace and
the error surfaces afterwards. -/
def chunksRun {σ : Type} (cfg : Config) (rd : σ → Nat → ReadResult × σ)
    (required_length : Nat) (s : σ) : List Ev × ChunksOutcome :=
  let r := chunksLoop cfg rd required_length s 0
  (r.1 ++ [Ev.close], r.2)

/-- Chunk payload of an event, if it is a `yield`. -/
def yieldData : Ev → Option (List Nat)
  | Ev.yield d => some d
  | _ => none

/-- The chunks a trace hands to the consumer, in order. -/
def yields (evs : List Ev) : List (List Nat) := evs.filterMap yieldData

/-- Requested amount of an event, if it is a `read`. -/
def readAmt : Ev → Option Nat
  | Ev.read a => some a
  | _ => none

/-- The `raw.read` request sizes of a trace, in order. -/
def readAmounts (evs : List Ev) : List Nat := evs.filterMap readAmt

/-- Whether an event is a `response.close()`. -/
def isClose : Ev → Bool
  | Ev.close => true
  | _ => false

/-- Number of `response.close()` calls in a trace. -/
def closeCount (evs : List Ev) : Nat := evs.countP isClose

/-- Total byte count of a list of chunks. -/
def sumLen (l : List (List Nat)) : Nat := (l.map List.length).sum

/-- The shortest prefix of a trace containing `k` yields (for `k ≥ 1`):
the events the generator has executed when it is suspended at its
`k`-th `yield`. -/
def takeToYield : List Ev → Nat → List Ev
  | [], _ => []
  | Ev.yield d :: rest, k =>
      if k ≤ 1 then [Ev.yield d] else Ev.yield d :: takeToYield rest (k - 1)
  | e :: rest, k => e :: takeToYield rest k

/-- Trace of a consumer that pulls at most `pulls` times from the
generator and then abandons it (drops it / calls `close()`).

* `pulls = 0`: the generator body never starts; per Python generator
  semantics closing a not-yet-started generator runs none of its code,
  so no event occurs — in particular no `response.close()`.
* If the generator finishes (or raises) within the `pulls` pulls, the
  trace is the full `chunksRun` trace.
* Otherwise the generator is suspended at its `pulls`-th `yield` when
  abandoned; `close()` raises `GeneratorExit` there, the `except` clause
  does not match it, the `finally` runs `response.close()`. -/
def abandonedTrace {σ : Type} (cfg : Config) (rd : σ → Nat → ReadResult × σ)
    (required_length : Nat) (s : σ) (pulls : Nat) : List Ev :=
  if pulls = 0 then []
  else
    let evs := (chunksLoop cfg rd required_length s 0).1
    if (yields evs).length < pulls then evs ++ [Ev.close]
    else takeToYield evs pulls ++ [Ev.close]

/-- Whether the server, once its remaining bytes cannot fill a read,
closes the connection (EOF) or stops sending (socket timeout). -/
inductive ServerEnd where
  | eof
  | stall (msg : String)
deriving DecidableEq

/-- Model of `response.raw.read(amt)` against a server that will deliver the
bytes `remaining` and then behave as `after`.  The body is read through
the blocking buffered reader, so a read returns exactly `amt` bytes
while the server has that many left; a smaller remainder is returned in
full when the server closes afterwards (and subsequent reads return
`b""`), while a server that stops sending makes the read exceed the
socket timeout.  `read(0)` returns `b""` without a socket operation. -/
def streamRead (after : ServerEnd) (remaining : List Nat) (amt : Nat) :
    ReadResult × List Nat :=
  if amt = 0 then (ReadResult.data [], remaining)
  else if amt ≤ remaining.length then
    (ReadResult.data (remaining.take amt), remaining.drop amt)
  else
    match after with
    | ServerEnd.eof => (ReadResult.data remaining, [])
    | ServerEnd.stall msg => (ReadResult.stall msg, remaining)

/-- The chunk decomposition of `body` into consecutive pieces of size
`cs` (last piece possibly smaller): the chunks `_chunks` yields when the
server delivers `body` in full. -/
def expectedChunks (cs : Nat) (body : List Nat) : List (List Nat) :=
  if body = [] ∨ cs = 0 then []
  else body.take cs :: expectedChunks cs (body.drop cs)
termination_by body.length
decreasing_by
  rename_i h
  rw [not_or] at h
  have h1 : body ≠ [] := h.1
  have h2 : cs ≠ 0 := h.2
  have : 0 < body.length := List.length_pos.mpr h1
  simp only [List.length_drop]
  omega

/-- The read sizes `min(cs, n - bytes_received)` of the successive
rounds that download exactly `n` bytes. -/
def expectedSizes (cs n : Nat) : List Nat :=
  if n = 0 ∨ cs = 0 then []
  else min cs n :: expectedSizes cs (n - min cs n)
termination_by n
decreasing_by
  rename_i h
  rw [not_or] at h
  omega

/-- A URL together with its `urllib.parse.urlparse` projections used by
`_get_session`: `parsed_url.scheme` (the empty string when absent) and
`parsed_url.hostname` (`None` when absent; lowercased by `urlparse`).
the parser itself is not modelled. -/
structure Url where
  raw : String
  scheme : String
  hostname : Option String
deriving DecidableEq

/-- The value `parsed_url.hostname` as a string, `None` mapping to the falsy
empty string (both are falsy in `if not parsed_url.hostname`). -/
def hostStr : Option String → String
  | none => ""
  | some h => h

/-- Negation of `not parsed_url.scheme or not parsed_url.hostname`
(requests_fetcher.py line 157): both projections are truthy. -/
def validUrl (u : Url) : Bool :=
  (u.scheme ≠ "" : Bool) && (hostStr u.hostname ≠ "" : Bool)

/-- The version string `tuf.__version__`; its exact value is irrelevant
to every property proved here. -/
def tufVersion : String := "0.0.0"

/-- The `User-Agent` the `requests` library installs on a fresh
`Session`; exact value irrelevant to every property proved here. -/
def requestsDefaultUA : String := "python-requests"

/-- The two headers `_get_session` sets on a newly created session:
`Accept-Encoding: identity` and the TUF user agent built from the
previous default of the session. -/
def defaultHeaders : List (String × String) :=
  [("Accept-Encoding", "identity"),
   ("User-Agent", "tuf/" ++ tufVersion ++ " " ++ requestsDefaultUA)]

/-- A `requests.Session`.  `sid` is the identity of the underlying
object: each `requests.Session()` call yields a fresh one, numbered by
the allocation counter of the fetcher. -/
structure Session where
  sid : Nat
  headers : List (String × String)
deriving DecidableEq

/-- The mutable state of one `RequestsFetcher` instance: the
`_sessions` dict (association list in insertion order, as Python dicts
are) and the next fresh session identity. -/
structure FetcherState where
  sessions : List (String × Session)
  nextSid : Nat
deriving DecidableEq

/-- The state after `__init__`: empty pool. -/
def initialState : FetcherState := ⟨[], 0⟩

/-- The errors a `fetch` interaction can surface to the caller.
`urlParsing`, `fetcherHTTP` and `slowRetrieval` are the
`tuf.exceptions` types raised by this layer itself; `connectionFailure`
models a `requests.exceptions.ConnectionError` (or other request-phase
exception) raised by `session.get` and caught nowhere in this file. -/
inductive FetchError where
  | urlParsing (msg : String)
  | fetcherHTTP (msg : String) (status : Nat)
  | slowRetrieval (msg : String)
  | connectionFailure (msg : String)
deriving DecidableEq

/-- The pool key `session_index = parsed_url.scheme + "+" + parsed_url.hostname`. -/
def sessionKey (u : Url) : String := u.scheme ++ "+" ++ hostStr u.hostname

/-- Dict lookup `self._sessions.get(session_index)`: first entry with the key. -/
def lookupSession : List (String × Session) → String → Option Session
  | [], _ => none
  | (k, s) :: rest, key => if k = key then some s else lookupSession rest key

/-- Message of the `URLParsingError` (requests_fetcher.py line 158). -/
def urlParsingMsg (u : Url) : String :=
  "Could not get scheme and hostname from URL: " ++ u.raw

/-- Model of `RequestsFetcher._get_session` (requests_fetcher.py lines 149-190):
validate the parsed URL, look the session up by
`scheme + "+" + hostname`, and on a miss create a fresh session, store
it, and set its default headers.  A `requests.Session` object is always
truthy, so `if not session` tests presence in the dict. -/
def getSession (st : FetcherState) (u : Url) :
    Except FetchError (Session × FetcherState) :=
  if validUrl u then
    match lookupSession st.sessions (sessionKey u) with
    | some session => Except.ok (session, st)
    | none =>
        let session : Session := ⟨st.nextSid, defaultHeaders⟩
        Except.ok
          (session, ⟨st.sessions ++ [(sessionKey u, session)], st.nextSid + 1⟩)
  else Except.error (FetchError.urlParsing (urlParsingMsg u))

/-- The environment behaviour for one
`session.get(url, stream=True, timeout=...)` call: either the request
phase fails (`requests.exceptions.ConnectionError` and similar —
raised by the library, not caught by `fetch`), or a streaming response
arrives with a status code, a reason phrase and a body handle. -/
inductive GetOutcome (σ : Type) where
  | failure (msg : String)
  | response (status : Nat) (reason : String) (body : σ)

/-- Predicate for `Response.raise_for_status`: it raises for `400 <= status < 600`. -/
def isErrorStatus (status : Nat) : Bool :=
  decide (400 ≤ status) && decide (status < 600)

/-- Message `str(e)` of the `requests.HTTPError` built by `raise_for_status`:
`"%s Client Error: %s for url: %s"` for 4xx, `Server Error` for 5xx. -/
def httpErrorMsg (status : Nat) (reason url : String) : String :=
  if status < 500 then
    toString status ++ " Client Error: " ++ reason ++ " for url: " ++ url
  else
    toString status ++ " Server Error: " ++ reason ++ " for url: " ++ url

/-- What `fetch` hands back: a raised error, or the not-yet-started
`_chunks` generator (body handle plus `required_length`). -/
inductive FetchResult (σ : Type) where
  | failure (e : FetchError)
  | stream (body : σ) (required_length : Nat)

/-- Model of `RequestsFetcher.fetch` (requests_fetcher.py lines 56-93): resolve
the session, issue the GET, check the status (closing the response and
raising `FetcherHTTPError(str(e), status)` on an error status), and
otherwise return the `_chunks` generator without starting it.  Returns
the result, the fetcher state afterwards, and the events performed by
`fetch` itself (the generator events happen later, driven by the
consumer). -/
def fetch {σ : Type} (st : FetcherState) (u : Url) (required_length : Nat)
    (env : GetOutcome σ) : FetchResult σ × FetcherState × List Ev :=
  match getSession st u with
  | Except.error e => (FetchResult.failure e, st, [])
  | Except.ok (session, st') =>
    match env with
    | GetOutcome.failure msg =>
        (FetchResult.failure (FetchError.connectionFailure msg), st',
          [Ev.get session.sid])
    | GetOutcome.response status reason body =>
        if isErrorStatus status then
          (FetchResult.failure
            (FetchError.fetcherHTTP (httpErrorMsg status reason u.raw) status),
            st', [Ev.get session.sid, Ev.close])
        else
          (FetchResult.stream body required_length, st', [Ev.get session.sid])

/-- Every failure one complete `fetch`-and-consume interaction surfaces
to the caller: the error `fetch` raises synchronously, if any, else the
error the stream raises during consumption, if any. -/
def surfacedErrors {σ : Type} (cfg : Config) (rd : σ → Nat → ReadResult × σ)
    (st : FetcherState) (u : Url) (required_length : Nat)
    (env : GetOutcome σ) : List FetchError :=
  match fetch st u required_length env with
  | (FetchResult.failure e, _, _) => [e]
  | (FetchResult.stream body rl, _, _) =>
    match (chunksRun cfg rd rl body).2 with
    | ChunksOutcome.completed _ => []
    | ChunksOutcome.slow msg => [FetchError.slowRetrieval msg]

/-- Membership in the three-kind error taxonomy. -/
def isTaxonomy : FetchError → Bool
  | FetchError.urlParsing _ => true
  | FetchError.fetcherHTTP _ _ => true
  | FetchError.slowRetrieval _ => true
  | FetchError.connectionFailure _ => false

/-- Whether an error is an unmapped request-phase library failure. -/
def isConnFailure : FetchError → Bool
  | FetchError.connectionFailure _ => true
  | _ => false

/-- The message of an unmapped request-phase failure. -/
def connMsg : FetchError → String
  | FetchError.connectionFailure m => m
  | _ => ""

/-- The session identity a `fetch` call performed its GET on, read off
its trace (the GET is always the first event when one is issued). -/
def usedSid : List Ev → Option Nat
  | Ev.get sid :: _ => some sid
  | _ => none

/-- Pool sanity, true of every state reachable from `initialState`:
stored session identities are below the allocation counter, and
distinct keys hold sessions with distinct identities. -/
def PoolWF (st : FetcherState) : Prop :=
  (∀ k s, (k, s) ∈ st.sessions → s.sid < st.nextSid) ∧
  (∀ k₁ s₁ k₂ s₂, (k₁, s₁) ∈ st.sessions → (k₂, s₂) ∈ st.sessions →
    k₁ ≠ k₂ → s₁.sid ≠ s₂.sid)



/-! ### Concrete instances used by witnesses and counterexamples -/

/-- A fetcher configuration with `chunk_size = 4` (a mutated
`chunk_size`, as the chunking example of the spec uses). -/
def cfgW : Config := ⟨4, 4, none⟩

/-- A configuration with `chunk_size = 2`. -/
def cfgC3 : Config := ⟨4, 2, none⟩

/-- Ten bytes of server body. -/
def body10 : List Nat := [0, 1, 2, 3, 4, 5, 6, 7, 8, 9]

/-- A well-formed URL. -/
def urlGood : Url := ⟨"http://example.com/root.json", "http", some "example.com"⟩

/-- A URL with no scheme: `urlparse` leaves scheme empty and hostname
absent. -/
def urlBad : Url := ⟨"example.com/file.txt", "", none⟩

/-- Scheme `git+ssh`, hostname `host`. -/
def urlPlus1 : Url := ⟨"git+ssh://host/f.txt", "git+ssh", some "host"⟩

/-- Scheme `git`, hostname `ssh+host`: a different endpoint whose
composite pool key collides with `urlPlus1`. -/
def urlPlus2 : Url := ⟨"git://ssh+host/f.txt", "git", some "ssh+host"⟩

/-- Two URLs on one endpoint, and one on another. -/
def urlSame1 : Url := ⟨"http://example.com/1.json", "http", some "example.com"⟩

/-- Same endpoint as `urlSame1`, different path. -/
def urlSame2 : Url := ⟨"http://example.com/2.json", "http", some "example.com"⟩

/-- A distinct endpoint. -/
def urlOther : Url := ⟨"https://other.example.org/f.txt", "https", some "other.example.org"⟩

/-- A successful 200 streaming response with an empty body handle. -/
def envOk : GetOutcome (List Nat) := GetOutcome.response 200 "OK" []

/-! ### Trace projections: basic lemmas -/

@[simp] theorem yields_nil : yields [] = [] := rfl

@[simp] theorem yields_append (l₁ l₂ : List Ev) :
    yields (l₁ ++ l₂) = yields l₁ ++ yields l₂ :=
  List.filterMap_append l₁ l₂ yieldData

@[simp] theorem yields_cons_get (a : Nat) (l : List Ev) :
    yields (Ev.get a :: l) = yields l := rfl

@[simp] theorem yields_cons_sleep (a : Nat) (l : List Ev) :
    yields (Ev.sleep a :: l) = yields l := rfl

@[simp] theorem yields_cons_read (a : Nat) (l : List Ev) :
    yields (Ev.read a :: l) = yields l := rfl

@[simp] theorem yields_cons_yield (d : List Nat) (l : List Ev) :
    yields (Ev.yield d :: l) = d :: yields l := rfl

@[simp] theorem yields_cons_close (l : List Ev) :
    yields (Ev.close :: l) = yields l := rfl

@[simp] theorem yields_sleepEvs (cfg : Config) : yields (sleepEvs cfg) = [] := by
  unfold sleepEvs
  match cfg.sleep_before_round with
  | none => rfl
  | some t =>
    dsimp only
    split <;> rfl

@[simp] theorem readAmounts_nil : readAmounts [] = [] := rfl

@[simp] theorem readAmounts_append (l₁ l₂ : List Ev) :
    readAmounts (l₁ ++ l₂) = readAmounts l₁ ++ readAmounts l₂ :=
  List.filterMap_append l₁ l₂ readAmt

@[simp] theorem readAmounts_cons_read (a : Nat) (l : List Ev) :
    readAmounts (Ev.read a :: l) = a :: readAmounts l := rfl

@[simp] theorem readAmounts_cons_yield (d : List Nat) (l : List Ev) :
    readAmounts (Ev.yield d :: l) = readAmounts l := rfl

@[simp] theorem readAmounts_cons_close (l : List Ev) :
    readAmounts (Ev.close :: l) = readAmounts l := rfl

@[simp] theorem readAmounts_sleepEvs (cfg : Config) :
    readAmounts (sleepEvs cfg) = [] := by
  unfold sleepEvs
  match cfg.sleep_before_round with
  | none => rfl
  | some t =>
    dsimp only
    split <;> rfl

@[simp] theorem closeCount_nil : closeCount [] = 0 := rfl

@[simp] theorem closeCount_append (l₁ l₂ : List Ev) :
    closeCount (l₁ ++ l₂) = closeCount l₁ + closeCount l₂ :=
  List.countP_append _ _ _

@[simp] theorem closeCount_cons_get (a : Nat) (l : List Ev) :
    closeCount (Ev.get a :: l) = closeCount l := by
  simp [closeCount, List.countP_cons, isClose]

@[simp] theorem closeCount_cons_sleep (a : Nat) (l : List Ev) :
    closeCount (Ev.sleep a :: l) = closeCount l := by
  simp [closeCount, List.countP_cons, isClose]

@[simp] theorem closeCount_cons_read (a : Nat) (l : List Ev) :
    closeCount (Ev.read a :: l) = closeCount l := by
  simp [closeCount, List.countP_cons, isClose]

@[simp] theorem closeCount_cons_yield (d : List Nat) (l : List Ev) :
    closeCount (Ev.yield d :: l) = closeCount l := by
  simp [closeCount, List.countP_cons, isClose]

@[simp] theorem closeCount_cons_close (l : List Ev) :
    closeCount (Ev.close :: l) = closeCount l + 1 := by
  simp [closeCount, List.countP_cons, isClose]

@[simp] theorem closeCount_sleepEvs (cfg : Config) :
    closeCount (sleepEvs cfg) = 0 := by
  unfold sleepEvs
  match cfg.sleep_before_round with
  | none => rfl
  | some t =>
    dsimp only
    split <;> rfl

@[simp] theorem sumLen_nil : sumLen [] = 0 := rfl

@[simp] theorem sumLen_cons (d : List Nat) (l : List (List Nat)) :
    sumLen (d :: l) = d.length + sumLen l := rfl

theorem sumLen_eq_flatten_length (l : List (List Nat)) : sumLen l = l.flatten.length :=
  (List.length_flatten l).symm

/-! ### Generic properties of the `_chunks` loop -/

/-- Length bound, loop form: starting from `bytes_received ≤
required_length`, the bytes already counted plus all bytes yielded by
the rest of the loop never exceed `required_length`, provided a read
never returns more bytes than requested (guaranteed by `urllib3`). -/
theorem loop_sum_le {σ : Type} (cfg : Config) (rd : σ → Nat → ReadResult × σ)
    (hcap : ∀ s amt bs s', rd s amt = (ReadResult.data bs, s') → bs.length ≤ amt)
    (required_length : Nat) :
    ∀ fuel (s : σ) bytes_received, required_length - bytes_received ≤ fuel →
      bytes_received ≤ required_length →
      bytes_received +
          sumLen (yields (chunksLoop cfg rd required_length s bytes_received).1)
        ≤ required_length := by
  intro fuel
  induction fuel with
  | zero =>
    intro s b hf hb
    rw [chunksLoop.eq_def]
    rcases hrd : rd s (min cfg.chunk_size (required_length - b)) with ⟨res, s'⟩
    cases res with
    | stall msg => simpa [hrd] using hb
    | data bs =>
      have hcapb := hcap s _ bs s' hrd
      have hbs : bs = [] := by
        have : bs.length = 0 := by omega
        exact List.length_eq_zero.mp this
      simp [hrd, hbs]
      omega
  | succ n ih =>
    intro s b hf hb
    rw [chunksLoop.eq_def]
    rcases hrd : rd s (min cfg.chunk_size (required_length - b)) with ⟨res, s'⟩
    cases res with
    | stall msg => simpa [hrd] using hb
    | data bs =>
      have hcapb := hcap s _ bs s' hrd
      simp only [hrd]
      by_cases hbs : bs = []
      · simp [hbs]; omega
      · simp only [hbs, dite_false, reduceDIte]
        by_cases hfull : required_length ≤ b + bs.length
        · simp only [hfull, reduceDIte]
          simp
          omega
        · simp only [hfull, reduceDIte]
          have hlen : 0 < bs.length := List.length_pos.mpr hbs
          have ihh := ih s' (b + bs.length) (by omega) (by omega)
          simp
          omega

/-- If the yielded bytes add up exactly to the (positive) remaining
requirement, the last loop event is the final `yield`: once
`bytes_received` reaches `required_length` the loop `break`s without a
further read. -/
theorem loop_ends_with_yield {σ : Type} (cfg : Config)
    (rd : σ → Nat → ReadResult × σ) (required_length : Nat) :
    ∀ fuel (s : σ) b, required_length - b ≤ fuel → b < required_length →
      b + sumLen (yields (chunksLoop cfg rd required_length s b).1)
        = required_length →
      ∃ pre d, (chunksLoop cfg rd required_length s b).1 = pre ++ [Ev.yield d] := by
  intro fuel
  induction fuel with
  | zero => intro s b hf hb _; omega
  | succ n ih =>
    intro s b hf hb hsum
    rw [chunksLoop.eq_def] at hsum ⊢
    rcases hrd : rd s (min cfg.chunk_size (required_length - b)) with ⟨res, s'⟩
    cases res with
    | stall msg =>
      simp only [hrd] at hsum
      simp at hsum
      omega
    | data bs =>
      simp only [hrd] at hsum ⊢
      by_cases hbs : bs = []
      · simp [hbs] at hsum; omega
      · simp only [hbs, dite_false, reduceDIte] at hsum ⊢
        by_cases hfull : required_length ≤ b + bs.length
        · simp only [hfull, reduceDIte]
          exact ⟨sleepEvs cfg ++ [Ev.read (min cfg.chunk_size (required_length - b))],
            bs, by simp⟩
        · simp only [hfull, reduceDIte] at hsum ⊢
          simp at hsum
          have hlen : 0 < bs.length := List.length_pos.mpr hbs
          obtain ⟨pre, d, hpre⟩ :=
            ih s' (b + bs.length) (by omega) (by omega) (by omega)
          refine ⟨sleepEvs cfg ++
            Ev.read (min cfg.chunk_size (required_length - b)) :: Ev.yield bs :: pre,
            d, ?_⟩
          simp [hpre]

/-- The loop body never calls `response.close()`; only the `finally`
block does. -/
theorem loop_no_close {σ : Type} (cfg : Config) (rd : σ → Nat → ReadResult × σ)
    (required_length : Nat) :
    ∀ fuel (s : σ) b, required_length - b ≤ fuel →
      closeCount (chunksLoop cfg rd required_length s b).1 = 0 := by
  intro fuel
  induction fuel with
  | zero =>
    intro s b hf
    rw [chunksLoop.eq_def]
    rcases hrd : rd s (min cfg.chunk_size (required_length - b)) with ⟨res, s'⟩
    cases res with
    | stall msg => simp [hrd]
    | data bs =>
      simp only [hrd]
      by_cases hbs : bs = []
      · simp [hbs]
      · simp only [hbs, dite_false, reduceDIte]
        by_cases hfull : required_length ≤ b + bs.length
        · simp [hfull]
        · have hlen : 0 < bs.length := List.length_pos.mpr hbs
          omega
  | succ n ih =>
    intro s b hf
    rw [chunksLoop.eq_def]
    rcases hrd : rd s (min cfg.chunk_size (required_length - b)) with ⟨res, s'⟩
    cases res with
    | stall msg => simp [hrd]
    | data bs =>
      simp only [hrd]
      by_cases hbs : bs = []
      · simp [hbs]
      · simp only [hbs, dite_false, reduceDIte]
        by_cases hfull : required_length ≤ b + bs.length
        · simp [hfull]
        · simp only [hfull, reduceDIte]
          have hlen : 0 < bs.length := List.length_pos.mpr hbs
          have ihh := ih s' (b + bs.length) (by omega)
          simp [ihh]

/-- The generator `_chunks` yields a chunk only after checking `if not data: break`,
so every yielded chunk is non-empty — for every server behaviour. -/
theorem loop_yields_nonempty {σ : Type} (cfg : Config)
    (rd : σ → Nat → ReadResult × σ) (required_length : Nat) :
    ∀ fuel (s : σ) b, required_length - b ≤ fuel →
      ∀ d ∈ yields (chunksLoop cfg rd required_length s b).1, d ≠ [] := by
  intro fuel
  induction fuel with
  | zero =>
    intro s b hf
    rw [chunksLoop.eq_def]
    rcases hrd : rd s (min cfg.chunk_size (required_length - b)) with ⟨res, s'⟩
    cases res with
    | stall msg => simp [hrd]
    | data bs =>
      simp only [hrd]
      by_cases hbs : bs = []
      · simp [hbs]
      · simp only [hbs, dite_false, reduceDIte]
        by_cases hfull : required_length ≤ b + bs.length
        · simp only [hfull, reduceDIte]
          intro d hd
          simp at hd
          simpa [hd] using hbs
        · have hlen : 0 < bs.length := List.length_pos.mpr hbs
          omega
  | succ n ih =>
    intro s b hf
    rw [chunksLoop.eq_def]
    rcases hrd : rd s (min cfg.chunk_size (required_length - b)) with ⟨res, s'⟩
    cases res with
    | stall msg => simp [hrd]
    | data bs =>
      simp only [hrd]
      by_cases hbs : bs = []
      · simp [hbs]
      · simp only [hbs, dite_false, reduceDIte]
        by_cases hfull : required_length ≤ b + bs.length
        · simp only [hfull, reduceDIte]
          intro d hd
          simp at hd
          simpa [hd] using hbs
        · simp only [hfull, reduceDIte]
          have hlen : 0 < bs.length := List.length_pos.mpr hbs
          intro d hd
          simp at hd
          rcases hd with hd | hd
          · simpa [hd] using hbs
          · exact ih s' (b + bs.length) (by omega) d (by simpa using hd)

/-- With `required_length = 0`, the single round requests a read of 0
bytes; the Python `raw.read(0)` returns `b""` immediately, so the loop
`break`s at once with no chunk yielded. -/
theorem loop_rl_zero {σ : Type} (cfg : Config) (rd : σ → Nat → ReadResult × σ)
    (s s' : σ) (hz : rd s 0 = (ReadResult.data [], s')) :
    chunksLoop cfg rd 0 s 0
      = (sleepEvs cfg ++ [Ev.read 0], ChunksOutcome.completed 0) := by
  rw [chunksLoop.eq_def]
  simp [hz]

/-! ### The byte-stream server model -/

/-- Reading zero bytes, `raw.read(0)`, returns `b""` without a socket operation. -/
theorem streamRead_zero (after : ServerEnd) (remaining : List Nat) :
    streamRead after remaining 0 = (ReadResult.data [], remaining) := by
  simp [streamRead]

/-- A read never returns more bytes than requested. -/
theorem streamRead_cap (after : ServerEnd) :
    ∀ (s : List Nat) (amt : Nat) (bs : List Nat) (s' : List Nat),
      streamRead after s amt = (ReadResult.data bs, s') → bs.length ≤ amt := by
  intro s amt bs s' h
  unfold streamRead at h
  by_cases h0 : amt = 0
  · rw [if_pos h0] at h
    cases h
    simp [h0]
  · rw [if_neg h0] at h
    by_cases hle : amt ≤ s.length
    · rw [if_pos hle] at h
      cases h
      simp
    · rw [if_neg hle] at h
      cases after with
      | eof =>
        simp only at h
        cases h
        omega
      | stall msg => simp at h

@[simp] theorem expectedChunks_nil (cs : Nat) : expectedChunks cs [] = [] := by
  rw [expectedChunks]
  simp

theorem expectedChunks_cons (cs : Nat) (body : List Nat) (h1 : body ≠ [])
    (h2 : cs ≠ 0) :
    expectedChunks cs body = body.take cs :: expectedChunks cs (body.drop cs) := by
  rw [expectedChunks]
  simp [h1, h2]

@[simp] theorem expectedSizes_zero (cs : Nat) : expectedSizes cs 0 = [] := by
  rw [expectedSizes]
  simp

theorem expectedSizes_cons (cs n : Nat) (h1 : n ≠ 0) (h2 : cs ≠ 0) :
    expectedSizes cs n = min cs n :: expectedSizes cs (n - min cs n) := by
  rw [expectedSizes]
  simp [h1, h2]

/-- Concatenating the chunk decomposition recovers the body. -/
theorem expectedChunks_flatten (cs : Nat) (hcs : 0 < cs) :
    ∀ fuel (body : List Nat), body.length ≤ fuel →
      (expectedChunks cs body).flatten = body := by
  intro fuel
  induction fuel with
  | zero =>
    intro body hf
    have : body = [] := List.length_eq_zero.mp (Nat.le_zero.mp hf)
    simp [this]
  | succ n ih =>
    intro body hf
    by_cases hb : body = []
    · simp [hb]
    · rw [expectedChunks_cons cs body hb (by omega)]
      have hlen : 0 < body.length := List.length_pos.mpr hb
      have hdrop : (body.drop cs).length ≤ n := by
        simp only [List.length_drop]
        omega
      simp only [List.flatten_cons, ih (body.drop cs) hdrop]
      exact List.take_append_drop cs body

/-- One round of the loop against an already-exhausted EOF server:
the read returns `b""` and the loop `break`s. -/
theorem loop_stream_eof_nil (cfg : Config) (hcs : 0 < cfg.chunk_size)
    (required_length b : Nat) (hb : b < required_length) :
    chunksLoop cfg (streamRead ServerEnd.eof) required_length [] b
      = (sleepEvs cfg ++
          [Ev.read (min cfg.chunk_size (required_length - b))],
        ChunksOutcome.completed b) := by
  rw [chunksLoop.eq_def]
  have hamt : min cfg.chunk_size (required_length - b) ≠ 0 := by
    have : 0 < min cfg.chunk_size (required_length - b) :=
      lt_min_iff.mpr ⟨hcs, by omega⟩
    omega
  simp [streamRead, hamt]

/-- Characterization of a run against a server that delivers exactly
the remaining requirement: every round reads
`min(chunk_size, required_length - bytes_received)` bytes and yields
them, and the loop completes at exactly `required_length` without ever
reading past the final chunk (so how the server behaves after its last
byte is irrelevant). -/
theorem loop_stream_exact (cfg : Config) (hcs : 0 < cfg.chunk_size)
    (after : ServerEnd) (required_length : Nat) :
    ∀ fuel (remaining : List Nat) b, remaining.length ≤ fuel → remaining ≠ [] →
      b + remaining.length = required_length →
      yields (chunksLoop cfg (streamRead after) required_length remaining b).1
          = expectedChunks cfg.chunk_size remaining ∧
      readAmounts (chunksLoop cfg (streamRead after) required_length remaining b).1
          = expectedSizes cfg.chunk_size remaining.length ∧
      (chunksLoop cfg (streamRead after) required_length remaining b).2
          = ChunksOutcome.completed required_length := by
  intro fuel
  induction fuel with
  | zero =>
    intro r b hf hr _
    exact absurd (List.length_eq_zero.mp (Nat.le_zero.mp hf)) hr
  | succ n ih =>
    intro r b hf hr hlen
    have hrpos : 0 < r.length := List.length_pos.mpr hr
    have hsub : required_length - b = r.length := by omega
    rw [chunksLoop.eq_def, hsub]
    have hamt0 : min cfg.chunk_size r.length ≠ 0 := by
      have : 0 < min cfg.chunk_size r.length := lt_min_iff.mpr ⟨hcs, hrpos⟩
      omega
    have hamtle : min cfg.chunk_size r.length ≤ r.length := Nat.min_le_right _ _
    have hread : streamRead after r (min cfg.chunk_size r.length)
        = (ReadResult.data (r.take (min cfg.chunk_size r.length)),
            r.drop (min cfg.chunk_size r.length)) := by
      rw [streamRead.eq_def, if_neg hamt0, if_pos hamtle]
    simp only [hread]
    have htklen : (r.take (min cfg.chunk_size r.length)).length
        = min cfg.chunk_size r.length := by
      rw [List.length_take]
      exact Nat.min_eq_left hamtle
    have htkne : r.take (min cfg.chunk_size r.length) ≠ [] := by
      intro hcon
      rw [hcon] at htklen
      simp at htklen
      omega
    simp only [dif_neg htkne]
    by_cases hsmall : r.length ≤ cfg.chunk_size
    · -- final round: the whole remainder is read and yielded
      have hamt : min cfg.chunk_size r.length = r.length := Nat.min_eq_right hsmall
      have hfull : required_length ≤ b + (r.take (min cfg.chunk_size r.length)).length := by
        rw [htklen, hamt]
        omega
      rw [dif_pos hfull]
      have htake : r.take (min cfg.chunk_size r.length) = r := by
        rw [hamt]
        exact List.take_length r
      have hdropnil : r.drop cfg.chunk_size = [] :=
        List.drop_eq_nil_of_le hsmall
      have htakecs : r.take cfg.chunk_size = r := List.take_of_length_le hsmall
      refine ⟨?_, ?_, ?_⟩
      · rw [expectedChunks_cons cfg.chunk_size r hr (by omega), hdropnil]
        simp [htake, htakecs]
      · rw [expectedSizes_cons cfg.chunk_size r.length (by omega) (by omega)]
        simp [hamt]
      · simp [htklen, hamt]
        omega
    · -- intermediate round: a full chunk_size chunk, then recurse
      have hcslt : cfg.chunk_size < r.length := by omega
      have hamt : min cfg.chunk_size r.length = cfg.chunk_size :=
        Nat.min_eq_left (by omega)
      have hnotfull :
          ¬ required_length ≤ b + (r.take (min cfg.chunk_size r.length)).length := by
        rw [htklen, hamt]
        omega
      rw [dif_neg hnotfull]
      have hdlen : (r.drop (min cfg.chunk_size r.length)).length = r.length - cfg.chunk_size := by
        simp [List.length_drop, hamt]
      have hdne : r.drop (min cfg.chunk_size r.length) ≠ [] := by
        intro hcon
        rw [hcon] at hdlen
        simp at hdlen
        omega
      obtain ⟨hy, hra, hout⟩ := ih (r.drop (min cfg.chunk_size r.length))
        (b + (r.take (min cfg.chunk_size r.length)).length)
        (by rw [hdlen]; omega) hdne
        (by rw [hdlen, htklen, hamt]; omega)
      refine ⟨?_, ?_, ?_⟩
      · simp only [yields_append, yields_sleepEvs, yields_cons_read, yields_cons_yield]
        rw [hy, expectedChunks_cons cfg.chunk_size r hr (by omega)]
        simp [hamt]
      · simp only [readAmounts_append, readAmounts_sleepEvs, readAmounts_cons_read,
          readAmounts_cons_yield]
        rw [hra, expectedSizes_cons cfg.chunk_size r.length (by omega) (by omega)]
        simp [hamt, hdlen]
      · simpa using hout

/-- A server that closes early delivers its whole remainder: the loop
ends normally with exactly the bytes the server sent yielded. -/
theorem loop_stream_eof (cfg : Config) (hcs : 0 < cfg.chunk_size)
    (required_length : Nat) :
    ∀ fuel (remaining : List Nat) b, remaining.length ≤ fuel →
      b + remaining.length < required_length →
      (yields (chunksLoop cfg (streamRead ServerEnd.eof) required_length remaining b).1).flatten
          = remaining ∧
      (chunksLoop cfg (streamRead ServerEnd.eof) required_length remaining b).2
          = ChunksOutcome.completed (b + remaining.length) := by
  intro fuel
  induction fuel with
  | zero =>
    intro r b hf hb
    have hr : r = [] := List.length_eq_zero.mp (Nat.le_zero.mp hf)
    subst hr
    rw [loop_stream_eof_nil cfg hcs required_length b (by omega)]
    simp
  | succ n ih =>
    intro r b hf hb
    by_cases hr : r = []
    · subst hr
      rw [loop_stream_eof_nil cfg hcs required_length b (by omega)]
      simp
    · have hrpos : 0 < r.length := List.length_pos.mpr hr
      rw [chunksLoop.eq_def]
      have hamt0 : min cfg.chunk_size (required_length - b) ≠ 0 := by
        have : 0 < min cfg.chunk_size (required_length - b) :=
          lt_min_iff.mpr ⟨hcs, by omega⟩
        omega
      by_cases hle : min cfg.chunk_size (required_length - b) ≤ r.length
      · -- the read is filled entirely from the remainder
        have hread : streamRead ServerEnd.eof r (min cfg.chunk_size (required_length - b))
            = (ReadResult.data (r.take (min cfg.chunk_size (required_length - b))),
                r.drop (min cfg.chunk_size (required_length - b))) := by
          rw [streamRead.eq_def, if_neg hamt0, if_pos hle]
        simp only [hread]
        have htklen : (r.take (min cfg.chunk_size (required_length - b))).length
            = min cfg.chunk_size (required_length - b) := by
          rw [List.length_take]
          exact Nat.min_eq_left hle
        have htkne : r.take (min cfg.chunk_size (required_length - b)) ≠ [] := by
          intro hcon
          rw [hcon] at htklen
          simp at htklen
          omega
        simp only [dif_neg htkne]
        have hamtpos : 0 < min cfg.chunk_size (required_length - b) := by omega
        have hnotfull :
            ¬ required_length ≤ b + (r.take (min cfg.chunk_size (required_length - b))).length := by
          rw [htklen]
          omega
        rw [dif_neg hnotfull]
        have hdlen : (r.drop (min cfg.chunk_size (required_length - b))).length
            = r.length - min cfg.chunk_size (required_length - b) := by
          simp [List.length_drop]
        obtain ⟨hy, hout⟩ := ih (r.drop (min cfg.chunk_size (required_length - b)))
          (b + (r.take (min cfg.chunk_size (required_length - b))).length)
          (by rw [hdlen]; omega)
          (by rw [hdlen, htklen]; omega)
        constructor
        · simp only [yields_append, yields_sleepEvs, yields_cons_read, yields_cons_yield,
            List.nil_append, List.flatten_cons, hy]
          exact List.take_append_drop _ r
        · have hfin : b + (r.take (min cfg.chunk_size (required_length - b))).length +
              (r.drop (min cfg.chunk_size (required_length - b))).length = b + r.length := by
            rw [htklen, hdlen]
            omega
          simp only [hout, hfin]
      · -- the remainder is smaller than the read: EOF hands it over whole
        have hread : streamRead ServerEnd.eof r (min cfg.chunk_size (required_length - b))
            = (ReadResult.data r, []) := by
          rw [streamRead.eq_def, if_neg hamt0, if_neg hle]
        simp only [hread]
        simp only [dif_neg hr]
        have hnotfull : ¬ required_length ≤ b + r.length := by omega
        rw [dif_neg hnotfull]
        obtain ⟨hy, hout⟩ := ih [] (b + r.length) (by simp) (by simpa using hb)
        constructor
        · simp only [yields_append, yields_sleepEvs, yields_cons_read, yields_cons_yield,
            List.nil_append, List.flatten_cons, hy]
          simp
        · simpa using hout

/-- Against a server that stops sending before `required_length` is
reached, the loop always ends in the `slow` outcome. -/
theorem loop_stream_stall (cfg : Config) (msg : String) (hcs : 0 < cfg.chunk_size)
    (required_length : Nat) :
    ∀ fuel (remaining : List Nat) b, remaining.length ≤ fuel →
      b + remaining.length < required_length →
      (chunksLoop cfg (streamRead (ServerEnd.stall msg)) required_length remaining b).2
          = ChunksOutcome.slow msg := by
  intro fuel
  induction fuel with
  | zero =>
    intro r b hf hb
    have hr : r = [] := List.length_eq_zero.mp (Nat.le_zero.mp hf)
    subst hr
    rw [chunksLoop.eq_def]
    have hamt0 : min cfg.chunk_size (required_length - b) ≠ 0 := by
      have : 0 < min cfg.chunk_size (required_length - b) :=
        lt_min_iff.mpr ⟨hcs, by omega⟩
      omega
    have hread : streamRead (ServerEnd.stall msg) [] (min cfg.chunk_size (required_length - b))
        = (ReadResult.stall msg, []) := by
      rw [streamRead.eq_def, if_neg hamt0,
        if_neg (by simp only [List.length_nil]; omega :
          ¬ min cfg.chunk_size (required_length - b) ≤ ([] : List Nat).length)]
    simp only [hread]
  | succ n ih =>
    intro r b hf hb
    rw [chunksLoop.eq_def]
    have hamt0 : min cfg.chunk_size (required_length - b) ≠ 0 := by
      have : 0 < min cfg.chunk_size (required_length - b) :=
        lt_min_iff.mpr ⟨hcs, by omega⟩
      omega
    by_cases hle : min cfg.chunk_size (required_length - b) ≤ r.length
    · have hread : streamRead (ServerEnd.stall msg) r (min cfg.chunk_size (required_length - b))
          = (ReadResult.data (r.take (min cfg.chunk_size (required_length - b))),
              r.drop (min cfg.chunk_size (required_length - b))) := by
        rw [streamRead.eq_def, if_neg hamt0, if_pos hle]
      simp only [hread]
      have htklen : (r.take (min cfg.chunk_size (required_length - b))).length
          = min cfg.chunk_size (required_length - b) := by
        rw [List.length_take]
        exact Nat.min_eq_left hle
      have htkne : r.take (min cfg.chunk_size (required_length - b)) ≠ [] := by
        intro hcon
        rw [hcon] at htklen
        simp at htklen
        omega
      simp only [dif_neg htkne]
      have hnotfull :
          ¬ required_length ≤ b + (r.take (min cfg.chunk_size (required_length - b))).length := by
        rw [htklen]
        omega
      rw [dif_neg hnotfull]
      have hdlen : (r.drop (min cfg.chunk_size (required_length - b))).length
          = r.length - min cfg.chunk_size (required_length - b) := by
        simp [List.length_drop]
      have hamtpos : 0 < min cfg.chunk_size (required_length - b) := by omega
      have := ih (r.drop (min cfg.chunk_size (required_length - b)))
        (b + (r.take (min cfg.chunk_size (required_length - b))).length)
        (by rw [hdlen]; omega)
        (by rw [hdlen, htklen]; omega)
      simpa using this
    · have hread : streamRead (ServerEnd.stall msg) r (min cfg.chunk_size (required_length - b))
          = (ReadResult.stall msg, r) := by
        rw [streamRead.eq_def, if_neg hamt0, if_neg hle]
      simp only [hread]


/-! ### Abandonment and the session pool: helper lemmas -/

@[simp] theorem takeToYield_nil (k : Nat) : takeToYield [] k = [] := rfl

@[simp] theorem takeToYield_get (sid : Nat) (rest : List Ev) (k : Nat) :
    takeToYield (Ev.get sid :: rest) k = Ev.get sid :: takeToYield rest k := rfl

@[simp] theorem takeToYield_sleep (t : Nat) (rest : List Ev) (k : Nat) :
    takeToYield (Ev.sleep t :: rest) k = Ev.sleep t :: takeToYield rest k := rfl

@[simp] theorem takeToYield_read (amt : Nat) (rest : List Ev) (k : Nat) :
    takeToYield (Ev.read amt :: rest) k = Ev.read amt :: takeToYield rest k := rfl

@[simp] theorem takeToYield_close (rest : List Ev) (k : Nat) :
    takeToYield (Ev.close :: rest) k = Ev.close :: takeToYield rest k := rfl

theorem takeToYield_yield (d : List Nat) (rest : List Ev) (k : Nat) :
    takeToYield (Ev.yield d :: rest) k
      = if k ≤ 1 then [Ev.yield d] else Ev.yield d :: takeToYield rest (k - 1) := rfl

/-- Every event of the prefix executed before abandonment is an event
of the full loop trace. -/
theorem takeToYield_mem : ∀ (evs : List Ev) (k : Nat) (e : Ev),
    e ∈ takeToYield evs k → e ∈ evs := by
  intro evs
  induction evs with
  | nil =>
    intro k e h
    simpa using h
  | cons a rest ih =>
    intro k e h
    cases a with
    | yield d =>
      rw [takeToYield_yield] at h
      by_cases hk : k ≤ 1
      · rw [if_pos hk] at h
        simp at h
        simp [h]
      · rw [if_neg hk] at h
        rcases List.mem_cons.mp h with h | h
        · simp [h]
        · exact List.mem_cons_of_mem _ (ih (k - 1) e h)
    | get sid =>
      rw [takeToYield_get] at h
      rcases List.mem_cons.mp h with h | h
      · simp [h]
      · exact List.mem_cons_of_mem _ (ih k e h)
    | sleep t =>
      rw [takeToYield_sleep] at h
      rcases List.mem_cons.mp h with h | h
      · simp [h]
      · exact List.mem_cons_of_mem _ (ih k e h)
    | read amt =>
      rw [takeToYield_read] at h
      rcases List.mem_cons.mp h with h | h
      · simp [h]
      · exact List.mem_cons_of_mem _ (ih k e h)
    | close =>
      rw [takeToYield_close] at h
      rcases List.mem_cons.mp h with h | h
      · simp [h]
      · exact List.mem_cons_of_mem _ (ih k e h)

/-- A close-free trace stays close-free when cut at a yield. -/
theorem closeCount_takeToYield (evs : List Ev) (k : Nat)
    (h : closeCount evs = 0) : closeCount (takeToYield evs k) = 0 := by
  rw [closeCount, List.countP_eq_zero] at h ⊢
  intro e he
  exact h e (takeToYield_mem evs k e he)

/-- A dict hit returns an entry of the dict. -/
theorem lookupSession_mem : ∀ (l : List (String × Session)) (key : String)
    (s : Session), lookupSession l key = some s → (key, s) ∈ l := by
  intro l
  induction l with
  | nil =>
    intro key s h
    simp [lookupSession] at h
  | cons a rest ih =>
    intro key s h
    rcases a with ⟨k, s₀⟩
    rw [lookupSession] at h
    by_cases hk : k = key
    · rw [if_pos hk] at h
      cases h
      subst hk
      exact List.mem_cons_self _ _
    · rw [if_neg hk] at h
      exact List.mem_cons_of_mem _ (ih key s h)

/-- A hit in the front part of a dict is a hit in the whole dict. -/
theorem lookupSession_append_some : ∀ (l₁ l₂ : List (String × Session))
    (key : String) (s : Session), lookupSession l₁ key = some s →
    lookupSession (l₁ ++ l₂) key = some s := by
  intro l₁
  induction l₁ with
  | nil =>
    intro l₂ key s h
    simp [lookupSession] at h
  | cons a rest ih =>
    intro l₂ key s h
    rcases a with ⟨k, s₀⟩
    rw [lookupSession] at h
    rw [List.cons_append, lookupSession]
    by_cases hk : k = key
    · rwa [if_pos hk] at h ⊢
    · rw [if_neg hk] at h ⊢
      exact ih l₂ key s h

/-- A miss in the front part defers to the back part. -/
theorem lookupSession_append_none : ∀ (l₁ l₂ : List (String × Session))
    (key : String), lookupSession l₁ key = none →
    lookupSession (l₁ ++ l₂) key = lookupSession l₂ key := by
  intro l₁
  induction l₁ with
  | nil => intro l₂ key _; rfl
  | cons a rest ih =>
    intro l₂ key h
    rcases a with ⟨k, s₀⟩
    rw [lookupSession] at h
    rw [List.cons_append, lookupSession]
    by_cases hk : k = key
    · rw [if_pos hk] at h
      cases h
    · rw [if_neg hk] at h ⊢
      exact ih l₂ key h

@[simp] theorem lookupSession_singleton_same (k : String) (s : Session) :
    lookupSession [(k, s)] k = some s := by
  simp [lookupSession]

/-- Inversion of `_get_session` on the success path: either a pool hit
leaving the state unchanged, or a miss allocating the next fresh
session and appending it to the pool. -/
theorem getSession_inv {st : FetcherState} {u : Url} {s : Session}
    {st' : FetcherState} (h : getSession st u = Except.ok (s, st')) :
    validUrl u = true ∧
    ((lookupSession st.sessions (sessionKey u) = some s ∧ st' = st) ∨
     (lookupSession st.sessions (sessionKey u) = none ∧
      s = ⟨st.nextSid, defaultHeaders⟩ ∧
      st' = ⟨st.sessions ++ [(sessionKey u, s)], st.nextSid + 1⟩)) := by
  unfold getSession at h
  by_cases hv : validUrl u
  · rw [if_pos hv] at h
    refine ⟨hv, ?_⟩
    cases hl : lookupSession st.sessions (sessionKey u) with
    | none =>
      rw [hl] at h
      simp only [Except.ok.injEq, Prod.mk.injEq] at h
      right
      refine ⟨rfl, h.1.symm, ?_⟩
      rw [← h.2, ← h.1]
    | some s₀ =>
      rw [hl] at h
      simp only [Except.ok.injEq, Prod.mk.injEq] at h
      left
      exact ⟨by rw [h.1], h.2.symm⟩
  · rw [if_neg hv] at h
    cases h

/-- On a valid URL, `_get_session` succeeds. -/
theorem getSession_total (st : FetcherState) {u : Url}
    (hv : validUrl u = true) :
    ∃ s st', getSession st u = Except.ok (s, st') := by
  unfold getSession
  rw [if_pos hv]
  cases hl : lookupSession st.sessions (sessionKey u) with
  | none => exact ⟨_, _, rfl⟩
  | some s₀ => exact ⟨_, _, rfl⟩

/-- On an invalid URL, `_get_session` raises `URLParsingError`. -/
theorem getSession_invalid {st : FetcherState} {u : Url}
    (hv : validUrl u = false) :
    getSession st u = Except.error (FetchError.urlParsing (urlParsingMsg u)) := by
  unfold getSession
  rw [hv]
  rfl

/-- An error raised by `_get_session` is always the `URLParsingError`. -/
theorem getSession_error_inv {st : FetcherState} {u : Url} {e : FetchError}
    (h : getSession st u = Except.error e) :
    e = FetchError.urlParsing (urlParsingMsg u) := by
  unfold getSession at h
  by_cases hv : validUrl u
  · rw [if_pos hv] at h
    cases hl : lookupSession st.sessions (sessionKey u) with
    | none => rw [hl] at h; cases h
    | some s₀ => rw [hl] at h; cases h
  · rw [if_neg hv] at h
    cases h
    rfl

/-- Getting a session for the same key immediately afterwards is a hit
on the same session and leaves the pool unchanged. -/
theorem getSession_same_key {st : FetcherState} {u₁ u₂ : Url} {s : Session}
    {st' : FetcherState} (h : getSession st u₁ = Except.ok (s, st'))
    (hv₂ : validUrl u₂ = true) (hk : sessionKey u₂ = sessionKey u₁) :
    getSession st' u₂ = Except.ok (s, st') := by
  obtain ⟨hv₁, hcases⟩ := getSession_inv h
  unfold getSession
  rw [if_pos hv₂, hk]
  rcases hcases with ⟨hl, hst⟩ | ⟨hl, hs, hst⟩
  · subst hst
    rw [hl]
  · subst hst
    rw [lookupSession_append_none st.sessions _ _ hl,
      lookupSession_singleton_same]

/-- The pool operation `_get_session` preserves pool sanity. -/
theorem getSession_poolWF {st : FetcherState} {u : Url} {s : Session}
    {st' : FetcherState} (hwf : PoolWF st)
    (h : getSession st u = Except.ok (s, st')) : PoolWF st' := by
  obtain ⟨_, hcases⟩ := getSession_inv h
  rcases hcases with ⟨_, hst⟩ | ⟨_, hs, hst⟩
  · subst hst
    exact hwf
  · subst hst
    constructor
    · intro k t hmem
      simp only [List.mem_append, List.mem_singleton] at hmem
      rcases hmem with hmem | hmem
      · have := hwf.1 k t hmem
        simp only
        omega
      · cases hmem
        rw [hs]
        simp only
        omega
    · intro k₁ t₁ k₂ t₂ h₁ h₂ hne
      simp only [List.mem_append, List.mem_singleton] at h₁ h₂
      rcases h₁ with h₁ | h₁ <;> rcases h₂ with h₂ | h₂
      · exact hwf.2 k₁ t₁ k₂ t₂ h₁ h₂ hne
      · cases h₂
        have := hwf.1 k₁ t₁ h₁
        rw [hs]
        simp only
        omega
      · cases h₁
        have := hwf.1 k₂ t₂ h₂
        rw [hs]
        simp only
        omega
      · cases h₁
        cases h₂
        exact absurd rfl hne

/-- Sessions produced by two `_get_session` calls for distinct keys are
distinct objects. -/
theorem getSession_distinct {st st₁ st₂ : FetcherState} {u₁ u₂ : Url}
    {s₁ s₂ : Session} (hwf : PoolWF st)
    (h₁ : getSession st u₁ = Except.ok (s₁, st₁))
    (h₂ : getSession st₁ u₂ = Except.ok (s₂, st₂))
    (hk : sessionKey u₁ ≠ sessionKey u₂) : s₁.sid ≠ s₂.sid := by
  obtain ⟨_, hc₁⟩ := getSession_inv h₁
  obtain ⟨_, hc₂⟩ := getSession_inv h₂
  rcases hc₁ with ⟨hl₁, hst₁⟩ | ⟨hl₁, hs₁, hst₁⟩
  · subst hst₁
    have hmem₁ := lookupSession_mem _ _ _ hl₁
    rcases hc₂ with ⟨hl₂, _⟩ | ⟨hl₂, hs₂, _⟩
    · have hmem₂ := lookupSession_mem _ _ _ hl₂
      exact hwf.2 _ _ _ _ hmem₁ hmem₂ hk
    · have := hwf.1 _ _ hmem₁
      rw [hs₂]
      simp only
      omega
  · subst hst₁
    rcases hc₂ with ⟨hl₂, _⟩ | ⟨hl₂, hs₂, _⟩
    · have hmem₂ := lookupSession_mem _ _ _ hl₂
      simp only [List.mem_append, List.mem_singleton] at hmem₂
      rcases hmem₂ with hmem₂ | hmem₂
      · have := hwf.1 _ _ hmem₂
        rw [hs₁]
        simp only
        omega
      · exfalso
        apply hk
        have : sessionKey u₂ = sessionKey u₁ := congrArg Prod.fst hmem₂
        exact this.symm
    · rw [hs₁, hs₂]
      simp only
      omega

/-- Entries of the pool survive any `_get_session` call. -/
theorem getSession_mem_mono {st : FetcherState} {u : Url} {s : Session}
    {st' : FetcherState} (h : getSession st u = Except.ok (s, st'))
    {e : String × Session} (he : e ∈ st.sessions) : e ∈ st'.sessions := by
  obtain ⟨_, hcases⟩ := getSession_inv h
  rcases hcases with ⟨_, hst⟩ | ⟨_, _, hst⟩
  · subst hst
    exact he
  · subst hst
    exact List.mem_append_left _ he

/-- Bridge from `fetch` to `_get_session`: the state after `fetch` is
the state `_get_session` produced, and the GET was issued on the
session `_get_session` returned, whatever the environment does. -/
theorem fetch_proj {σ : Type} {st : FetcherState} {u : Url} (rl : Nat)
    (env : GetOutcome σ) {s : Session} {st' : FetcherState}
    (h : getSession st u = Except.ok (s, st')) :
    (fetch st u rl env).2.1 = st' ∧
    usedSid (fetch st u rl env).2.2 = some s.sid := by
  cases env with
  | failure msg =>
    simp only [fetch, h]
    exact ⟨trivial, rfl⟩
  | response status reason body =>
    simp only [fetch, h]
    by_cases hst : isErrorStatus status = true
    · rw [if_pos hst]
      exact ⟨rfl, rfl⟩
    · rw [if_neg hst]
      exact ⟨rfl, rfl⟩

/-- The state `initialState` satisfies pool sanity. -/
theorem poolWF_initial : PoolWF initialState :=
  ⟨fun k s h => absurd h (List.not_mem_nil (k, s)),
   fun k₁ s₁ k₂ s₂ h₁ _ _ => absurd h₁ (List.not_mem_nil (k₁, s₁))⟩


/-! ### The claims -/

/-- Claim C1.  Length bound: for every `required_length ≥ 0` and every
sequence of bytes the server delivers (any read model in which a read
returns at most the requested number of bytes, as `urllib3` guarantees),
the sum of the lengths of all chunks yielded by the stream returned from
`fetch(url, required_length)` never exceeds `required_length`; and once
the running total reaches `required_length`, the stream terminates after
yielding the current chunk without performing any further read — the
trace ends with that yield followed only by the `finally` close. -/
theorem length_bound {σ : Type} (cfg : Config) (rd : σ → Nat → ReadResult × σ)
    (required_length : Nat) (s : σ)
    (hcap : ∀ s₁ amt bs s₂, rd s₁ amt = (ReadResult.data bs, s₂) → bs.length ≤ amt) :
    sumLen (yields (chunksRun cfg rd required_length s).1) ≤ required_length ∧
    (0 < required_length →
      sumLen (yields (chunksRun cfg rd required_length s).1) = required_length →
      ∃ pre d, (chunksRun cfg rd required_length s).1 = pre ++ [Ev.yield d, Ev.close]) := by
  have hyr : yields (chunksRun cfg rd required_length s).1
      = yields (chunksLoop cfg rd required_length s 0).1 := by
    simp [chunksRun]
  constructor
  · have h := loop_sum_le cfg rd hcap required_length required_length s 0
      (by omega) (by omega)
    rw [hyr]
    omega
  · intro hpos hsum
    rw [hyr] at hsum
    obtain ⟨pre, d, hpre⟩ := loop_ends_with_yield cfg rd required_length
      required_length s 0 (by omega) (by omega) (by omega)
    refine ⟨pre, d, ?_⟩
    show (chunksLoop cfg rd required_length s 0).1 ++ [Ev.close] = pre ++ [Ev.yield d, Ev.close]
    rw [hpre, List.append_assoc]
    rfl

/-- Witness for C1: with `chunk_size = 4` and a server holding 10 bytes,
the run at `required_length = 10` yields exactly 10 bytes and its trace
ends with the final yield directly followed by the close. -/
theorem length_bound_witness :
    sumLen (yields (chunksRun cfgW (streamRead ServerEnd.eof) 10 body10).1) = 10 ∧
    ∃ pre d, (chunksRun cfgW (streamRead ServerEnd.eof) 10 body10).1
        = pre ++ [Ev.yield d, Ev.close] := by
  have hex := loop_stream_exact cfgW (by decide) ServerEnd.eof 10 body10.length
    body10 0 (le_refl body10.length) (by decide) (by decide)
  have hsum : sumLen (yields (chunksRun cfgW (streamRead ServerEnd.eof) 10 body10).1) = 10 := by
    have hyr : yields (chunksRun cfgW (streamRead ServerEnd.eof) 10 body10).1
        = yields (chunksLoop cfgW (streamRead ServerEnd.eof) 10 body10 0).1 := by
      simp [chunksRun]
    rw [hyr, hex.1, sumLen_eq_flatten_length,
      expectedChunks_flatten cfgW.chunk_size (by decide) body10.length body10
        (le_refl body10.length)]
    decide
  exact ⟨hsum, (length_bound cfgW (streamRead ServerEnd.eof) 10 body10
    (streamRead_cap ServerEnd.eof)).2 (by decide) hsum⟩

/-- Claim C2, amended.  The response handle is closed exactly once on every
exit path on which the generator body has started: complete consumption
(EOF, length satisfied, or timeout — every outcome), and abandonment
after at least one pull.  (Abandonment before the first pull runs none
of the generator code, so this layer never closes the response then —
see the counterexample.) -/
theorem resource_release_amended {σ : Type} (cfg : Config)
    (rd : σ → Nat → ReadResult × σ) (required_length : Nat) (s : σ) :
    closeCount (chunksRun cfg rd required_length s).1 = 1 ∧
    ∀ pulls, 1 ≤ pulls →
      closeCount (abandonedTrace cfg rd required_length s pulls) = 1 := by
  have h0 := loop_no_close cfg rd required_length required_length s 0 (by omega)
  constructor
  · simp [chunksRun, h0]
  · intro pulls hp
    simp only [abandonedTrace]
    rw [if_neg (by omega : ¬ pulls = 0)]
    by_cases hk : (yields (chunksLoop cfg rd required_length s 0).1).length < pulls
    · rw [if_pos hk]
      simp [h0]
    · rw [if_neg hk]
      simp [closeCount_takeToYield (chunksLoop cfg rd required_length s 0).1 pulls h0]

/-- Witness for C2: a fully consumed run closes once, and abandoning after
2 pulls still closes once. -/
theorem resource_release_witness :
    closeCount (chunksRun defaultConfig (streamRead ServerEnd.eof) 5 ([1, 2, 3] : List Nat)).1 = 1 ∧
    closeCount (abandonedTrace defaultConfig (streamRead ServerEnd.eof) 5 ([1, 2, 3] : List Nat) 2) = 1 :=
  ⟨(resource_release_amended defaultConfig (streamRead ServerEnd.eof) 5 [1, 2, 3]).1,
   (resource_release_amended defaultConfig (streamRead ServerEnd.eof) 5 [1, 2, 3]).2 2 (by omega)⟩

/-- Counterexample for C2: a consumer that abandons the stream returned by
`fetch` before pulling even once never starts the generator body, so
`response.close()` is executed zero times, not exactly once — the claim
fails on this exit path. -/
theorem resource_release_cex :
    closeCount (abandonedTrace defaultConfig (streamRead ServerEnd.eof) 5 ([1, 2, 3] : List Nat) 0) = 0 ∧
    closeCount (abandonedTrace defaultConfig (streamRead ServerEnd.eof) 5 ([1, 2, 3] : List Nat) 0) ≠ 1 :=
  ⟨rfl, by decide⟩

/-- Claim C3.  Stall detection: against a server that stops sending (read
times out) before `required_length` is reached, the stream ends with
`SlowRetrievalError` (carrying the timeout message); the trace always
contains exactly one close and ends with it, i.e. the connection is
closed (by the `finally` block) before the error surfaces.  Chunks read
before the stall were already yielded to the caller (witness). -/
theorem stall_detection (cfg : Config) (msg : String) (body : List Nat)
    (required_length : Nat) (hcs : 0 < cfg.chunk_size)
    (hlen : body.length < required_length) :
    (chunksRun cfg (streamRead (ServerEnd.stall msg)) required_length body).2
        = ChunksOutcome.slow msg ∧
    closeCount (chunksRun cfg (streamRead (ServerEnd.stall msg)) required_length body).1 = 1 ∧
    (chunksRun cfg (streamRead (ServerEnd.stall msg)) required_length body).1.getLast?
        = some Ev.close := by
  have h0 := loop_no_close cfg (streamRead (ServerEnd.stall msg)) required_length
    required_length body 0 (by omega)
  refine ⟨?_, ?_, ?_⟩
  · exact loop_stream_stall cfg msg hcs required_length body.length body 0
      (le_refl body.length) (by omega)
  · simp [chunksRun, h0]
  · show ((chunksLoop cfg (streamRead (ServerEnd.stall msg)) required_length body 0).1
        ++ [Ev.close]).getLast? = some Ev.close
    exact List.getLast?_concat _

/-- Witness for C3: `chunk_size = 2`, a server sending 5 bytes then
stalling, `required_length = 9`: two chunks are yielded to the caller
before the `SlowRetrievalError`, and the close precedes the error. -/
theorem stall_detection_witness :
    0 < cfgC3.chunk_size ∧ ([0, 1, 2, 3, 4] : List Nat).length < 9 ∧
    ((chunksRun cfgC3 (streamRead (ServerEnd.stall "Read timed out.")) 9 [0, 1, 2, 3, 4]).2
        = ChunksOutcome.slow "Read timed out." ∧
      closeCount (chunksRun cfgC3 (streamRead (ServerEnd.stall "Read timed out.")) 9 [0, 1, 2, 3, 4]).1 = 1 ∧
      (chunksRun cfgC3 (streamRead (ServerEnd.stall "Read timed out.")) 9 [0, 1, 2, 3, 4]).1.getLast?
        = some Ev.close) ∧
    yields (chunksRun cfgC3 (streamRead (ServerEnd.stall "Read timed out.")) 9 [0, 1, 2, 3, 4]).1
        = [[0, 1], [2, 3]] := by
  refine ⟨by decide, by decide,
    stall_detection cfgC3 "Read timed out." [0, 1, 2, 3, 4] 9 (by decide) (by decide), ?_⟩
  simp [chunksRun, chunksLoop, streamRead, sleepEvs, yields, yieldData, cfgC3]

/-- Claim C8.  Early EOF is normal termination: a server that closes the
stream after delivering fewer bytes than `required_length` ends the
stream with the `completed` outcome (no error), and the bytes yielded
are exactly the bytes the server sent. -/
theorem early_eof_normal (cfg : Config) (body : List Nat) (required_length : Nat)
    (hcs : 0 < cfg.chunk_size) (hlen : body.length < required_length) :
    (chunksRun cfg (streamRead ServerEnd.eof) required_length body).2
        = ChunksOutcome.completed body.length ∧
    (yields (chunksRun cfg (streamRead ServerEnd.eof) required_length body).1).flatten
        = body ∧
    sumLen (yields (chunksRun cfg (streamRead ServerEnd.eof) required_length body).1)
        = body.length := by
  obtain ⟨hy, hout⟩ := loop_stream_eof cfg hcs required_length body.length body 0
    (le_refl body.length) (by omega)
  have hyr : yields (chunksRun cfg (streamRead ServerEnd.eof) required_length body).1
      = yields (chunksLoop cfg (streamRead ServerEnd.eof) required_length body 0).1 := by
    simp [chunksRun]
  refine ⟨?_, ?_, ?_⟩
  · show (chunksLoop cfg (streamRead ServerEnd.eof) required_length body 0).2
        = ChunksOutcome.completed body.length
    rw [hout]
    simp
  · rw [hyr]
    exact hy
  · rw [hyr, sumLen_eq_flatten_length, hy]

/-- Witness for C8: the default configuration, a server sending 3 bytes
then closing, `required_length = 10`. -/
theorem early_eof_normal_witness :
    0 < defaultConfig.chunk_size ∧ ([5, 6, 7] : List Nat).length < 10 ∧
    (chunksRun defaultConfig (streamRead ServerEnd.eof) 10 [5, 6, 7]).2
        = ChunksOutcome.completed ([5, 6, 7] : List Nat).length ∧
    (yields (chunksRun defaultConfig (streamRead ServerEnd.eof) 10 [5, 6, 7]).1).flatten
        = [5, 6, 7] := by
  have h := early_eof_normal defaultConfig [5, 6, 7] 10 (by decide) (by decide)
  exact ⟨by decide, by decide, h.1, h.2.1⟩

/-- Claim C9.  Exact-length success and chunk sizing: a server that delivers
exactly `required_length` bytes produces chunks whose concatenation is
exactly those bytes in arrival order, the stream completes normally
(whatever the server would do on a further read — none happens), and
each round reads `min(chunk_size, required_length - bytes_received)`
bytes, so the read sizes follow `expectedSizes` and the chunks follow
`expectedChunks`. -/
theorem exact_length_success (cfg : Config) (after : ServerEnd) (body : List Nat)
    (required_length : Nat) (hcs : 0 < cfg.chunk_size) (hne : body ≠ [])
    (hlen : body.length = required_length) :
    yields (chunksRun cfg (streamRead after) required_length body).1
        = expectedChunks cfg.chunk_size body ∧
    (yields (chunksRun cfg (streamRead after) required_length body).1).flatten = body ∧
    readAmounts (chunksRun cfg (streamRead after) required_length body).1
        = expectedSizes cfg.chunk_size required_length ∧
    (chunksRun cfg (streamRead after) required_length body).2
        = ChunksOutcome.completed required_length := by
  obtain ⟨hy, hra, hout⟩ := loop_stream_exact cfg hcs after required_length
    body.length body 0 (le_refl body.length) hne (by omega)
  have hyr : yields (chunksRun cfg (streamRead after) required_length body).1
      = yields (chunksLoop cfg (streamRead after) required_length body 0).1 := by
    simp [chunksRun]
  have hrar : readAmounts (chunksRun cfg (streamRead after) required_length body).1
      = readAmounts (chunksLoop cfg (streamRead after) required_length body 0).1 := by
    simp [chunksRun, readAmounts, readAmt]
  refine ⟨?_, ?_, ?_, ?_⟩
  · rw [hyr]
    exact hy
  · rw [hyr, hy]
    exact expectedChunks_flatten cfg.chunk_size hcs body.length body (le_refl body.length)
  · rw [hrar, hra, hlen]
  · exact hout

/-- Witness for C9: `chunk_size = 4`, `required_length = 10`, a server
sending 10 bytes: the chunk sizes are `[4, 4, 2]` in order, as are the
read sizes, and the concatenation is the body. -/
theorem exact_length_success_witness :
    0 < cfgW.chunk_size ∧ body10 ≠ [] ∧ body10.length = 10 ∧
    (yields (chunksRun cfgW (streamRead ServerEnd.eof) 10 body10).1).map List.length
        = [4, 4, 2] ∧
    readAmounts (chunksRun cfgW (streamRead ServerEnd.eof) 10 body10).1 = [4, 4, 2] ∧
    (yields (chunksRun cfgW (streamRead ServerEnd.eof) 10 body10).1).flatten = body10 ∧
    (chunksRun cfgW (streamRead ServerEnd.eof) 10 body10).2
        = ChunksOutcome.completed 10 := by
  have h := exact_length_success cfgW ServerEnd.eof body10 10 (by decide) (by decide)
    (by decide)
  refine ⟨by decide, by decide, by decide, ?_, ?_, h.2.1, h.2.2.2⟩
  · rw [h.1]
    simp [expectedChunks, cfgW, body10]
  · rw [h.2.2.1]
    simp [expectedSizes, cfgW]

/-- Claim C10.  No empty chunks: whatever the server does, every chunk the
stream yields is non-empty (the loop breaks on empty data before the
yield); and with `required_length = 0` the single round performs
`raw.read(0)` — which returns `b""` at once — so zero chunks are
yielded and the response is still closed. -/
theorem no_empty_chunks {σ : Type} (cfg : Config) (rd : σ → Nat → ReadResult × σ)
    (required_length : Nat) (s : σ) :
    (∀ d ∈ yields (chunksRun cfg rd required_length s).1, d ≠ []) ∧
    (required_length = 0 →
      (∀ s₁ : σ, ∃ s₂ : σ, rd s₁ 0 = (ReadResult.data [], s₂)) →
      yields (chunksRun cfg rd required_length s).1 = [] ∧
      closeCount (chunksRun cfg rd required_length s).1 = 1) := by
  constructor
  · intro d hd
    have hyr : yields (chunksRun cfg rd required_length s).1
        = yields (chunksLoop cfg rd required_length s 0).1 := by
      simp [chunksRun]
    rw [hyr] at hd
    exact loop_yields_nonempty cfg rd required_length required_length s 0 (by omega) d hd
  · intro hrl hz
    subst hrl
    obtain ⟨s₂, hz0⟩ := hz s
    have hl := loop_rl_zero cfg rd s s₂ hz0
    constructor
    · simp [chunksRun, hl]
    · simp [chunksRun, hl]

/-- Witness for C10: `required_length = 0` against a server that has bytes
available: no chunk is yielded, the response is closed. -/
theorem no_empty_chunks_witness :
    yields (chunksRun defaultConfig (streamRead ServerEnd.eof) 0 ([9, 8] : List Nat)).1 = [] ∧
    closeCount (chunksRun defaultConfig (streamRead ServerEnd.eof) 0 ([9, 8] : List Nat)).1 = 1 :=
  (no_empty_chunks defaultConfig (streamRead ServerEnd.eof) 0 [9, 8]).2 rfl
    (fun s₁ => ⟨s₁, streamRead_zero ServerEnd.eof s₁⟩)


/-- Claim C4, amended.  Every failure this layer itself raises — at URL
validation, at the status check, or on a read stall — is one of the
three taxonomy kinds (`URLParsingError`, `FetcherHTTPError`,
`SlowRetrievalError`); but the taxonomy is not exhaustive: a
request-phase failure raised by the underlying HTTP library inside
`session.get` (e.g. `requests.exceptions.ConnectionError`) propagates
to the caller unmapped. -/
theorem error_taxonomy_amended {σ : Type} (cfg : Config)
    (rd : σ → Nat → ReadResult × σ) (st : FetcherState) (u : Url) (rl : Nat)
    (env : GetOutcome σ) (e : FetchError)
    (he : e ∈ surfacedErrors cfg rd st u rl env) :
    isTaxonomy e = true ∨
      (isConnFailure e = true ∧ env = GetOutcome.failure (connMsg e)) := by
  unfold surfacedErrors at he
  cases hgs : getSession st u with
  | error e₀ =>
    have he₀ := getSession_error_inv hgs
    simp only [fetch, hgs] at he
    simp at he
    subst he
    left
    rw [he₀]
    rfl
  | ok pr =>
    rcases pr with ⟨sess, st'⟩
    cases env with
    | failure msg =>
      simp only [fetch, hgs] at he
      simp at he
      subst he
      right
      exact ⟨rfl, rfl⟩
    | response status reason body =>
      simp only [fetch, hgs] at he
      by_cases hst : isErrorStatus status = true
      · rw [if_pos hst] at he
        simp at he
        subst he
        left
        rfl
      · rw [if_neg hst] at he
        dsimp only at he
        cases ho : (chunksRun cfg rd rl body).2 with
        | completed n =>
          rw [ho] at he
          simp at he
        | slow msg =>
          rw [ho] at he
          simp at he
          subst he
          left
          rfl

/-- Witness for C4: a stream that times out surfaces `SlowRetrievalError`,
which is in the taxonomy. -/
theorem error_taxonomy_witness :
    isTaxonomy (FetchError.urlParsing (urlParsingMsg urlBad)) = true ∨
      (isConnFailure (FetchError.urlParsing (urlParsingMsg urlBad)) = true ∧
       (GetOutcome.failure "boom" : GetOutcome (List Nat))
          = GetOutcome.failure (connMsg (FetchError.urlParsing (urlParsingMsg urlBad)))) :=
  error_taxonomy_amended defaultConfig (streamRead ServerEnd.eof) initialState
    urlBad 10 (GetOutcome.failure "boom") (FetchError.urlParsing (urlParsingMsg urlBad))
    (by decide)

/-- Counterexample for C4: when connection establishment fails,
`session.get` raises `requests.exceptions.ConnectionError`; `fetch`
catches only `requests.HTTPError` (status check) and
`urllib3.exceptions.ReadTimeoutError` (read stall), so the surfaced
failure is none of the three claimed kinds — the taxonomy is not
exhaustive. -/
theorem error_taxonomy_cex :
    surfacedErrors defaultConfig (streamRead ServerEnd.eof) initialState urlGood 10
        (GetOutcome.failure "Connection refused")
      = [FetchError.connectionFailure "Connection refused"] ∧
    isTaxonomy (FetchError.connectionFailure "Connection refused") = false :=
  ⟨by decide, rfl⟩

/-- Claim C5, amended.  Session reuse: two `fetch` calls whose URLs share
scheme and hostname use the very same pooled `Session` (the second call
leaves the pool unchanged); the pool never drops or replaces an entry;
and calls whose `(scheme, hostname)` pairs differ receive distinct
`Session` objects whenever their composite keys
`scheme + "+" + hostname` differ.  (Distinct pairs whose components
concatenate to the same key — possible because a scheme or hostname may
itself contain `"+"` — share one `Session`; see the counterexample.) -/
theorem session_reuse_amended :
    (∀ (σ₁ σ₂ : Type) (st : FetcherState) (u₁ u₂ : Url) (rl₁ rl₂ : Nat)
        (env₁ : GetOutcome σ₁) (env₂ : GetOutcome σ₂),
        validUrl u₁ = true → u₁.scheme = u₂.scheme → u₁.hostname = u₂.hostname →
        (fetch (fetch st u₁ rl₁ env₁).2.1 u₂ rl₂ env₂).2.1
            = (fetch st u₁ rl₁ env₁).2.1 ∧
        usedSid (fetch (fetch st u₁ rl₁ env₁).2.1 u₂ rl₂ env₂).2.2
            = usedSid (fetch st u₁ rl₁ env₁).2.2 ∧
        (usedSid (fetch st u₁ rl₁ env₁).2.2).isSome = true) ∧
    (∀ (σ₁ σ₂ : Type) (st : FetcherState) (u₁ u₂ : Url) (rl₁ rl₂ : Nat)
        (env₁ : GetOutcome σ₁) (env₂ : GetOutcome σ₂),
        PoolWF st → validUrl u₁ = true → validUrl u₂ = true →
        sessionKey u₁ ≠ sessionKey u₂ →
        usedSid (fetch (fetch st u₁ rl₁ env₁).2.1 u₂ rl₂ env₂).2.2
            ≠ usedSid (fetch st u₁ rl₁ env₁).2.2) ∧
    (∀ (σ : Type) (st : FetcherState) (u : Url) (rl : Nat) (env : GetOutcome σ)
        (entry : String × Session), entry ∈ st.sessions →
        entry ∈ (fetch st u rl env).2.1.sessions) := by
  refine ⟨?_, ?_, ?_⟩
  · intro σ₁ σ₂ st u₁ u₂ rl₁ rl₂ env₁ env₂ hv₁ hsch hhost
    obtain ⟨s₁, st₁, h₁⟩ := getSession_total st hv₁
    obtain ⟨hst₁, hsid₁⟩ := fetch_proj rl₁ env₁ h₁
    have hv₂ : validUrl u₂ = true := by
      unfold validUrl at hv₁ ⊢
      rw [← hsch, ← hhost]
      exact hv₁
    have hkey : sessionKey u₂ = sessionKey u₁ := by
      unfold sessionKey
      rw [hsch, hhost]
    have h₂ : getSession st₁ u₂ = Except.ok (s₁, st₁) :=
      getSession_same_key h₁ hv₂ hkey
    obtain ⟨hst₂, hsid₂⟩ := fetch_proj rl₂ env₂ h₂
    rw [hst₁]
    refine ⟨hst₂, ?_, ?_⟩
    · rw [hsid₂, hsid₁]
    · rw [hsid₁]
      rfl
  · intro σ₁ σ₂ st u₁ u₂ rl₁ rl₂ env₁ env₂ hwf hv₁ hv₂ hk
    obtain ⟨s₁, st₁, h₁⟩ := getSession_total st hv₁
    obtain ⟨hst₁, hsid₁⟩ := fetch_proj rl₁ env₁ h₁
    obtain ⟨s₂, st₂, h₂⟩ := getSession_total st₁ hv₂
    obtain ⟨hst₂, hsid₂⟩ := fetch_proj rl₂ env₂ h₂
    have hd := getSession_distinct hwf h₁ h₂ hk
    rw [hst₁, hsid₂, hsid₁]
    intro hcon
    exact hd (Option.some.inj hcon).symm
  · intro σ st u rl env entry he
    cases hgs : getSession st u with
    | error e₀ =>
      simp only [fetch, hgs]
      exact he
    | ok pr =>
      rcases pr with ⟨sess, st'⟩
      have hmem := getSession_mem_mono hgs he
      cases env with
      | failure msg =>
        simp only [fetch, hgs]
        exact hmem
      | response status reason body =>
        simp only [fetch, hgs]
        by_cases hst : isErrorStatus status = true
        · rw [if_pos hst]
          exact hmem
        · rw [if_neg hst]
          exact hmem

/-- Witness for C5: two calls to the `http`/`example.com` endpoint reuse
session 0 and leave the pool unchanged; a call to a different endpoint
uses a different session; the first entry survives later calls. -/
theorem session_reuse_witness :
    ((fetch (fetch initialState urlSame1 1 envOk).2.1 urlSame2 1 envOk).2.1
        = (fetch initialState urlSame1 1 envOk).2.1 ∧
      usedSid (fetch (fetch initialState urlSame1 1 envOk).2.1 urlSame2 1 envOk).2.2
        = usedSid (fetch initialState urlSame1 1 envOk).2.2 ∧
      (usedSid (fetch initialState urlSame1 1 envOk).2.2).isSome = true) ∧
    usedSid (fetch (fetch initialState urlSame1 1 envOk).2.1 urlOther 1 envOk).2.2
        ≠ usedSid (fetch initialState urlSame1 1 envOk).2.2 ∧
    ("http+example.com", (⟨0, defaultHeaders⟩ : Session))
        ∈ (fetch (fetch initialState urlSame1 1 envOk).2.1 urlOther 1 envOk).2.1.sessions := by
  refine ⟨?_, ?_, ?_⟩
  · exact session_reuse_amended.1 (List Nat) (List Nat) initialState urlSame1 urlSame2
      1 1 envOk envOk (by decide) rfl rfl
  · exact session_reuse_amended.2.1 (List Nat) (List Nat) initialState urlSame1 urlOther
      1 1 envOk envOk poolWF_initial (by decide) (by decide) (by decide)
  · exact session_reuse_amended.2.2 (List Nat) (fetch initialState urlSame1 1 envOk).2.1
      urlOther 1 envOk ("http+example.com", ⟨0, defaultHeaders⟩) (by decide)

/-- Counterexample for C5: the pool key is the plain concatenation
`scheme + "+" + hostname`, so the distinct `(scheme, hostname)` pairs
`("git+ssh", "host")` and `("git", "ssh+host")` collide on the key
`"git+ssh+host"`: the second fetch reuses the first session even though
the endpoints differ — refuting "calls whose (scheme, hostname) pairs
differ receive distinct Session objects". -/
theorem session_reuse_cex :
    (urlPlus1.scheme ≠ urlPlus2.scheme ∨ urlPlus1.hostname ≠ urlPlus2.hostname) ∧
    usedSid (fetch initialState urlPlus1 1 (GetOutcome.response 200 "OK" ([] : List Nat))).2.2
        = some 0 ∧
    usedSid (fetch (fetch initialState urlPlus1 1 (GetOutcome.response 200 "OK" ([] : List Nat))).2.1
        urlPlus2 1 (GetOutcome.response 200 "OK" ([] : List Nat))).2.2
        = some 0 :=
  ⟨Or.inl (by decide), by decide, by decide⟩

/-- Claim C6.  HTTP failure short-circuits: on a failure status
(`400 ≤ status < 600`, as `raise_for_status` raises), `fetch` raises
`FetcherHTTPError` carrying the numeric status and the descriptive
message, after closing the response; its trace is exactly the GET and
the close — zero chunks are yielded. -/
theorem http_error_short_circuit {σ : Type} (st : FetcherState) (u : Url)
    (rl status : Nat) (reason : String) (body : σ)
    (hv : validUrl u = true) (h4 : 400 ≤ status) (h6 : status < 600) :
    (fetch st u rl (GetOutcome.response status reason body)).1
        = FetchResult.failure
            (FetchError.fetcherHTTP (httpErrorMsg status reason u.raw) status) ∧
    yields (fetch st u rl (GetOutcome.response status reason body)).2.2 = [] ∧
    closeCount (fetch st u rl (GetOutcome.response status reason body)).2.2 = 1 ∧
    (fetch st u rl (GetOutcome.response status reason body)).2.2.getLast?
        = some Ev.close := by
  obtain ⟨sess, st', hgs⟩ := getSession_total st hv
  have herr : isErrorStatus status = true := by
    unfold isErrorStatus
    rw [Bool.and_eq_true, decide_eq_true_eq, decide_eq_true_eq]
    exact ⟨h4, h6⟩
  simp only [fetch, hgs]
  rw [if_pos herr]
  exact ⟨rfl, rfl, rfl, rfl⟩

/-- Witness for C6: a 404 response. -/
theorem http_error_short_circuit_witness :
    validUrl urlGood = true ∧ 400 ≤ 404 ∧ 404 < 600 ∧
    ((fetch initialState urlGood 10 (GetOutcome.response 404 "Not Found" ([] : List Nat))).1
        = FetchResult.failure
            (FetchError.fetcherHTTP (httpErrorMsg 404 "Not Found" urlGood.raw) 404) ∧
      yields (fetch initialState urlGood 10
          (GetOutcome.response 404 "Not Found" ([] : List Nat))).2.2 = [] ∧
      closeCount (fetch initialState urlGood 10
          (GetOutcome.response 404 "Not Found" ([] : List Nat))).2.2 = 1 ∧
      (fetch initialState urlGood 10
          (GetOutcome.response 404 "Not Found" ([] : List Nat))).2.2.getLast?
        = some Ev.close) :=
  ⟨by decide, by decide, by decide,
    http_error_short_circuit initialState urlGood 10 404 "Not Found" []
      (by decide) (by decide) (by decide)⟩

/-- Claim C7.  Malformed URL rejected early: when the parsed scheme or
hostname is missing or empty, `fetch` raises `URLParsingError`
immediately: the pool is untouched (no session created) and the event
trace is empty (no request, no network operation), whatever the
environment would have answered. -/
theorem malformed_url_rejected {σ : Type} (st : FetcherState) (u : Url) (rl : Nat)
    (env : GetOutcome σ)
    (hv : u.scheme = "" ∨ u.hostname = none ∨ u.hostname = some "") :
    fetch st u rl env
      = (FetchResult.failure (FetchError.urlParsing (urlParsingMsg u)), st, []) := by
  have hvb : validUrl u = false := by
    unfold validUrl
    rcases hv with hv | hv | hv <;> simp [hv, hostStr]
  have h : getSession st u
      = Except.error (FetchError.urlParsing (urlParsingMsg u)) :=
    getSession_invalid hvb
  simp only [fetch, h]

/-- Witness for C7: `urlparse("example.com/file.txt")` yields an empty
scheme and no hostname; `fetch` raises `URLParsingError`, the state is
unchanged and the trace is empty. -/
theorem malformed_url_rejected_witness :
    (urlBad.scheme = "" ∨ urlBad.hostname = none ∨ urlBad.hostname = some "") ∧
    fetch initialState urlBad 10 (GetOutcome.response 200 "OK" ([] : List Nat))
      = (FetchResult.failure (FetchError.urlParsing (urlParsingMsg urlBad)),
          initialState, []) :=
  ⟨Or.inl rfl,
    malformed_url_rejected initialState urlBad 10
      (GetOutcome.response 200 "OK" ([] : List Nat)) (Or.inl rfl)⟩


end RequestsFetcher
